import Mathlib

/-!
Verification of the WMTP client core (`src/client/js/protocol.js`):
the `WMTPProtocol` session state machine and the `WMTPTransport`
framing / connection-lifecycle layer, shallowly embedded in Lean.

JavaScript values stored in the session fields are modelled by `JVal`
(undefined, null, string, boolean, number); inbound messages are records
of `JVal` fields (a missing property reads as `undefined`, exactly as in
JavaScript).  Callback fields (`onSessionInit`, ...) are modelled by a
record of registration flags, and an invocation of a registered callback
is recorded as an emitted event.
-/

/-- A JavaScript value as it can appear in a message field or a session
field: `undefined` (absent property), `null`, a string, a boolean, or a
number (modelled as an integer; the protocol only uses integral fields). -/
inductive JVal where
  | undef
  | nullv
  | str (s : String)
  | boolv (b : Bool)
  | num (n : Int)
deriving DecidableEq, Repr

/-- JavaScript truthiness of a `JVal` (`if (x)`): `undefined`, `null`,
the empty string, `false` and `0` are falsy. -/
def JVal.truthy : JVal → Bool
  | .undef => false
  | .nullv => false
  | .str s => !s.isEmpty
  | .boolv b => b
  | .num n => n != 0

namespace WMTPProtocol

/-- The session-relevant fields of `WMTPProtocol`
(`this.sessionToken`, `this.authenticated`, `this.email`,
`this.username`). -/
structure Session where
  sessionToken : JVal
  authenticated : JVal
  email : JVal
  username : JVal
deriving DecidableEq, Repr

/-- The constructor state: all fields `null` except `authenticated = false`. -/
def initialSession : Session :=
  { sessionToken := JVal.nullv,
    authenticated := JVal.boolv false,
    email := JVal.nullv,
    username := JVal.nullv }

/-- An inbound message, as read by `handleMessage`: the fields the handler
accesses.  A property that the concrete message does not carry is `undef`. -/
structure Msg where
  cmd : JVal
  session_token : JVal
  authenticated : JVal
  email : JVal
  username : JVal
  status : JVal
deriving DecidableEq, Repr

/-- Which of the `WMTPProtocol` callback fields are non-null
(`this.onSessionInit`, `this.onAuthSuccess`, `this.onAuthFail`,
`this.onHeartbeat`, `this.onResponse`, `this.onError`). -/
structure Handlers where
  onSessionInit : Bool
  onAuthSuccess : Bool
  onAuthFail : Bool
  onHeartbeat : Bool
  onResponse : Bool
  onError : Bool

/-- All callbacks registered. -/
def allHandlers : Handlers :=
  { onSessionInit := true, onAuthSuccess := true, onAuthFail := true,
    onHeartbeat := true, onResponse := true, onError := true }

/-- A callback invocation performed by `handleMessage`, carrying the raw
message that was passed to the callback. -/
inductive Event where
  | heartbeat (m : Msg)
  | sessionInit (m : Msg)
  | authSuccess (m : Msg)
  | errorEv (m : Msg)
  | response (m : Msg)
deriving DecidableEq, Repr

/-- `WMTPProtocol.handleMessage` (protocol.js lines 101-159): the heartbeat
early return, the `switch (message.cmd)` state transitions, the
`status === ERR` error callback, and the unconditional general response
callback.  Returns the updated session and the list of callback
invocations, in invocation order. -/
def handleMessage (h : Handlers) (m : Msg) (s : Session) : Session × List Event :=
  if m.cmd = JVal.str "HB" then
    (s, if h.onHeartbeat then [Event.heartbeat m] else [])
  else
    let step :=
      if m.cmd = JVal.str "SESSION_INIT" then
        ({ s with sessionToken := m.session_token,
                  authenticated := JVal.boolv false },
         if h.onSessionInit then [Event.sessionInit m] else [])
      else if m.cmd = JVal.str "AUTH_OK" then
        ({ sessionToken := m.session_token,
           authenticated := JVal.boolv true,
           email := m.email,
           username := m.username : Session },
         if h.onAuthSuccess then [Event.authSuccess m] else [])
      else if m.cmd = JVal.str "SESSION_RESUMED" then
        ({ sessionToken := m.session_token,
           authenticated := m.authenticated,
           email := m.email,
           username := m.username : Session },
         if h.onSessionInit then [Event.sessionInit m] else [])
      else if m.cmd = JVal.str "LOGOUT_OK" then
        (initialSession, [])
      else
        (s, [])
    let errEvents :=
      if m.status = JVal.str "ERR" then
        (if h.onError then [Event.errorEv m] else [])
      else []
    let respEvents := if h.onResponse then [Event.response m] else []
    (step.1, step.2 ++ errEvents ++ respEvents)

/-- `true` iff the value is a non-empty string: the session token is
"present and non-empty". -/
def tokenPresent : JVal → Bool
  | .str s => !s.isEmpty
  | _ => false

/-- The session invariant of the spec: `authenticated == true` implies the
session token is present and non-empty. -/
def sessionInv (s : Session) : Prop :=
  s.authenticated = JVal.boolv true → tokenPresent s.sessionToken = true

instance (s : Session) : Decidable (sessionInv s) := by
  unfold sessionInv; infer_instance

/-- A message is token-well-formed when the transitions that can set
`authenticated` to `true` carry a non-empty string token: an `AUTH_OK`
message carries one, and a `SESSION_RESUMED` message whose `authenticated`
flag is `true` carries one. -/
def tokenWellFormed (m : Msg) : Prop :=
  (m.cmd = JVal.str "AUTH_OK" → tokenPresent m.session_token = true) ∧
  (m.cmd = JVal.str "SESSION_RESUMED" → m.authenticated = JVal.boolv true →
    tokenPresent m.session_token = true)

instance (m : Msg) : Decidable (tokenWellFormed m) := by
  unfold tokenWellFormed; infer_instance

end WMTPProtocol

open WMTPProtocol in
/-- C1 (counterexample): the claim fails as stated.  A `SESSION_RESUMED`
message whose `authenticated` flag is `true` but which carries no
`session_token` property is processed from the initial state (which
satisfies the invariant), and the resulting state has
`authenticated == true` with no session token. -/
theorem c1_counterexample :
    let m : Msg :=
      { cmd := JVal.str "SESSION_RESUMED", session_token := JVal.undef,
        authenticated := JVal.boolv true, email := JVal.undef,
        username := JVal.undef, status := JVal.str "OK" }
    sessionInv initialSession ∧
      ¬ sessionInv (handleMessage allHandlers m initialSession).1 := by
  decide

open WMTPProtocol in
/-- C1 (amended): for every inbound message whose authenticating
transitions carry a non-empty string token (`AUTH_OK` always;
`SESSION_RESUMED` whenever its `authenticated` flag is `true`),
`handleMessage` preserves the invariant that `authenticated == true`
implies the session token is present and non-empty — in particular the
`SESSION_RESUMED` transition adopts both the flag and the token from the
message. -/
theorem c1_invariant_preserved (h : Handlers) (m : Msg) (s : Session)
    (hs : sessionInv s) (hm : tokenWellFormed m) :
    sessionInv (handleMessage h m s).1 := by
  unfold handleMessage
  by_cases hHB : m.cmd = JVal.str "HB"
  · simpa [hHB] using hs
  · by_cases h1 : m.cmd = JVal.str "SESSION_INIT"
    · intro hauth
      simp [hHB, h1] at hauth
    · by_cases h2 : m.cmd = JVal.str "AUTH_OK"
      · intro _
        simpa [hHB, h1, h2] using hm.1 h2
      · by_cases h3 : m.cmd = JVal.str "SESSION_RESUMED"
        · intro hauth
          simp only [hHB, h1, h2, h3] at hauth ⊢
          simp at hauth
          simpa using hm.2 h3 hauth
        · by_cases h4 : m.cmd = JVal.str "LOGOUT_OK"
          · intro hauth
            simp [hHB, h1, h2, h3, h4, initialSession] at hauth
          · intro hauth
            simp only [hHB, h1, h2, h3, h4] at hauth ⊢
            simp at hauth ⊢
            exact hs hauth

open WMTPProtocol in
/-- C1 (witness): the amended theorem applied at a concrete `AUTH_OK`
message carrying a non-empty token, from the initial state. -/
theorem c1_witness :
    sessionInv (handleMessage allHandlers
      { cmd := JVal.str "AUTH_OK", session_token := JVal.str "tok",
        authenticated := JVal.undef, email := JVal.str "a@b.com",
        username := JVal.str "a", status := JVal.str "OK" }
      initialSession).1 :=
  c1_invariant_preserved allHandlers _ initialSession (by decide) (by decide)

open WMTPProtocol in
/-- C2 (counterexample): the claim fails as stated — `SESSION_INIT` does
not clear the email and username fields.  Processing a `SESSION_INIT`
message from a state whose email is `"a@b.com"` leaves the email equal to
`"a@b.com"`, not `null`. -/
theorem c2_counterexample :
    let m : Msg :=
      { cmd := JVal.str "SESSION_INIT", session_token := JVal.str "X",
        authenticated := JVal.undef, email := JVal.undef,
        username := JVal.undef, status := JVal.str "OK" }
    let s : Session :=
      { sessionToken := JVal.nullv, authenticated := JVal.boolv false,
        email := JVal.str "a@b.com", username := JVal.str "a" }
    (handleMessage allHandlers m s).1.email = JVal.str "a@b.com" ∧
      JVal.str "a@b.com" ≠ JVal.nullv := by
  decide

open WMTPProtocol in
/-- C2 (amended): for every inbound message with `cmd == SESSION_INIT`,
`handleMessage` sets the session token to the message's `session_token`,
sets `authenticated` to `false`, leaves the email and username fields
unchanged (they are not cleared), and fires the session-initialized
notification exactly once. -/
theorem c2_session_init_transition (m : Msg) (s : Session)
    (hc : m.cmd = JVal.str "SESSION_INIT") :
    (handleMessage allHandlers m s).1.sessionToken = m.session_token ∧
    (handleMessage allHandlers m s).1.authenticated = JVal.boolv false ∧
    (handleMessage allHandlers m s).1.email = s.email ∧
    (handleMessage allHandlers m s).1.username = s.username ∧
    (handleMessage allHandlers m s).2.count (Event.sessionInit m) = 1 := by
  have hHB : ¬ m.cmd = JVal.str "HB" := by rw [hc]; decide
  refine ⟨?_, ?_, ?_, ?_, ?_⟩ <;>
    · unfold handleMessage
      by_cases hErr : m.status = JVal.str "ERR" <;>
        simp [hHB, hc, hErr, allHandlers, List.count_append, List.count_cons]

open WMTPProtocol in
/-- C2 (witness): the amended theorem applied at a concrete
`SESSION_INIT` message and a state with a non-null email. -/
theorem c2_witness :
    let m : Msg :=
      { cmd := JVal.str "SESSION_INIT", session_token := JVal.str "X",
        authenticated := JVal.undef, email := JVal.undef,
        username := JVal.undef, status := JVal.str "OK" }
    let s : Session :=
      { sessionToken := JVal.nullv, authenticated := JVal.boolv false,
        email := JVal.str "a@b.com", username := JVal.str "a" }
    (handleMessage allHandlers m s).1.sessionToken = JVal.str "X" ∧
    (handleMessage allHandlers m s).1.authenticated = JVal.boolv false ∧
    (handleMessage allHandlers m s).1.email = JVal.str "a@b.com" ∧
    (handleMessage allHandlers m s).1.username = JVal.str "a" ∧
    (handleMessage allHandlers m s).2.count (Event.sessionInit m) = 1 := by
  exact c2_session_init_transition _ _ rfl

open WMTPProtocol in
/-- C7: with all callbacks registered, a message with `cmd == HB` fires
only the heartbeat notification (the event list is exactly the heartbeat
event, skipping all further classification); every other message fires
the general response notification with the full message, exactly once,
and as the final callback. -/
theorem c7_response_and_heartbeat (m : Msg) (s : Session) :
    if m.cmd = JVal.str "HB" then
      (handleMessage allHandlers m s).2 = [Event.heartbeat m]
    else
      (handleMessage allHandlers m s).2.count (Event.response m) = 1 ∧
      (handleMessage allHandlers m s).2.getLast? = some (Event.response m) := by
  by_cases hHB : m.cmd = JVal.str "HB"
  · simp [handleMessage, hHB, allHandlers]
  · simp only [if_neg hHB]
    unfold handleMessage
    by_cases h1 : m.cmd = JVal.str "SESSION_INIT" <;>
      by_cases h2 : m.cmd = JVal.str "AUTH_OK" <;>
        by_cases h3 : m.cmd = JVal.str "SESSION_RESUMED" <;>
          by_cases h4 : m.cmd = JVal.str "LOGOUT_OK" <;>
            by_cases hErr : m.status = JVal.str "ERR" <;>
              simp [hHB, h1, h2, h3, h4, hErr, allHandlers,
                List.count_append, List.count_cons, List.getLast?_append]

/-!
The transport layer works with JSON texts.  `JSON.parse` / `JSON.stringify`
are platform builtins; they are modelled here by an executable parser and
serializer over a JSON value type covering the shapes this protocol uses
(objects, arrays, strings with escapes, integral numbers, booleans, null).
-/

/-- A JSON value. -/
inductive Json where
  | null
  | bool (b : Bool)
  | num (n : Int)
  | str (s : String)
  | arr (elems : List Json)
  | obj (fields : List (String × Json))

/-- JavaScript regex `\s` class, restricted to the ASCII whitespace
characters that can occur in this protocol's texts. -/
def isWs (c : Char) : Bool :=
  c == ' ' || c == '\n' || c == '\x0c' || c == '\t' || c == '\r'

/-- ASCII decimal digit test. -/
def isDig (c : Char) : Bool :=
  c == '0' || c == '1' || c == '2' || c == '3' || c == '4' ||
  c == '5' || c == '6' || c == '7' || c == '8' || c == '9'

/-- The digit character for a value below ten. -/
def digitChar (d : Nat) : Char :=
  match d with
  | 0 => '0' | 1 => '1' | 2 => '2' | 3 => '3' | 4 => '4'
  | 5 => '5' | 6 => '6' | 7 => '7' | 8 => '8' | _ => '9'

/-- The value of a digit character. -/
def digitVal (c : Char) : Nat :=
  if c == '0' then 0 else if c == '1' then 1 else if c == '2' then 2
  else if c == '3' then 3 else if c == '4' then 4 else if c == '5' then 5
  else if c == '6' then 6 else if c == '7' then 7 else if c == '8' then 8
  else 9

/-- Decimal digits of a natural number, most significant first. -/
def natToChars (n : Nat) : List Char :=
  if h : n < 10 then [digitChar n]
  else natToChars (n / 10) ++ [digitChar (n % 10)]
termination_by n
decreasing_by
  have : 0 < n := by omega
  exact Nat.div_lt_self this (by omega)

/-- Value of a digit string. -/
def digitsToNat (ds : List Char) : Nat :=
  ds.foldl (fun a c => a * 10 + digitVal c) 0

/-- Greedy decimal-number scan: the longest digit prefix and the rest. -/
def parseNatNum (cs : List Char) : Option (Nat × List Char) :=
  let ds := cs.takeWhile isDig
  if ds.isEmpty then none else some (digitsToNat ds, cs.dropWhile isDig)

/-- Serialization of an integer (`JSON.stringify` of a number). -/
def serNum (i : Int) : List Char :=
  if i < 0 then '-' :: natToChars i.natAbs else natToChars i.natAbs

/-- String-literal escaping performed by `JSON.stringify` for the
characters this model covers. -/
def escChar (c : Char) : List Char :=
  if c = '"' then ['\\', '"']
  else if c = '\\' then ['\\', '\\']
  else if c = '\n' then ['\\', 'n']
  else if c = '\t' then ['\\', 't']
  else if c = '\r' then ['\\', 'r']
  else if c = '\x08' then ['\\', 'b']
  else if c = '\x0c' then ['\\', 'f']
  else [c]

/-- Inverse of a string escape sequence. -/
def unesc (c : Char) : Option Char :=
  if c = '"' then some '"'
  else if c = '\\' then some '\\'
  else if c = '/' then some '/'
  else if c = 'n' then some '\n'
  else if c = 't' then some '\t'
  else if c = 'r' then some '\r'
  else if c = 'b' then some '\x08'
  else if c = 'f' then some '\x0c'
  else none

/-- The escaped body of a string literal. -/
def serStrBody (s : List Char) : List Char := s.flatMap escChar

/-- A serialized string literal, quotes included. -/
def serStr (s : List Char) : List Char := '"' :: serStrBody s ++ ['"']

/-- Parse the body of a string literal after the opening quote, up to and
including the closing quote. -/
def parseStrBody : List Char → Option (List Char × List Char)
  | [] => none
  | c :: rest =>
    if c = '\\' then
      match rest with
      | [] => none
      | e :: rest2 =>
        match unesc e with
        | some u => (parseStrBody rest2).map (fun p => (u :: p.1, p.2))
        | none => none
    else if c = '"' then some ([], rest)
    else (parseStrBody rest).map (fun p => (c :: p.1, p.2))

/-- Consume an expected literal character sequence. -/
def dropLit : List Char → List Char → Option (List Char)
  | [], cs => some cs
  | _ :: _, [] => none
  | l :: ls, c :: cs => if c = l then dropLit ls cs else none

/-- Skip leading whitespace. -/
def skipWs (cs : List Char) : List Char := cs.dropWhile isWs

/-- Expect a colon at the head, then continue. -/
def expectColon {α : Type} : List Char → (List Char → Option α) → Option α
  | c :: r, f => if c = ':' then f r else none
  | [], _ => none

mutual

/-- Compact serialization of a JSON value (`JSON.stringify`). -/
def serVal : Json → List Char
  | .num i => serNum i
  | .str s => serStr s.data
  | .null => 'n' :: 'u' :: 'l' :: ['l']
  | .bool b => if b then 't' :: 'r' :: 'u' :: ['e'] else 'f' :: 'a' :: 'l' :: 's' :: ['e']
  | .arr [] => '[' :: [']']
  | .arr (x :: xs) => '[' :: (serVal x ++ serItems xs ++ [']'])
  | .obj [] => '\x7b' :: ['\x7d']
  | .obj ((k, v) :: ps) =>
    '\x7b' :: (serStr k.data ++ ':' :: serVal v ++ serPairs ps ++ ['\x7d'])

/-- Serialization of the remaining array elements, each preceded by a comma. -/
def serItems : List Json → List Char
  | [] => []
  | x :: xs => ',' :: serVal x ++ serItems xs

/-- Serialization of the remaining object members, each preceded by a comma. -/
def serPairs : List (String × Json) → List Char
  | [] => []
  | (k, v) :: ps => ',' :: serStr k.data ++ ':' :: serVal v ++ serPairs ps

end

mutual

/-- Fueled recursive-descent parser for a JSON value (the model of
`JSON.parse`'s grammar); returns the value and the unconsumed suffix. -/
def parseVal : Nat → List Char → Option (Json × List Char)
  | 0, _ => none
  | fuel + 1, cs =>
    match cs with
    | [] => none
    | c :: rest =>
      if c = 'n' then (dropLit ['u', 'l', 'l'] rest).map (fun r => (Json.null, r))
      else if c = 't' then (dropLit ['r', 'u', 'e'] rest).map (fun r => (Json.bool true, r))
      else if c = 'f' then (dropLit ['a', 'l', 's', 'e'] rest).map (fun r => (Json.bool false, r))
      else if c = '"' then
        (parseStrBody rest).map (fun p => (Json.str (String.mk p.1), p.2))
      else if c = '\x7b' then parseObjStart fuel (skipWs rest)
      else if c = '[' then parseArrStart fuel (skipWs rest)
      else if c = '-' then
        (parseNatNum rest).map (fun p => (Json.num (-(p.1 : Int)), p.2))
      else if isDig c then
        (parseNatNum (c :: rest)).map (fun p => (Json.num (p.1 : Int), p.2))
      else none

/-- Parse an object body after the opening brace (input already
whitespace-skipped): either the closing brace, or the first member
followed by the remaining members. -/
def parseObjStart : Nat → List Char → Option (Json × List Char)
  | 0, _ => none
  | fuel + 1, cs =>
    match cs with
    | [] => none
    | c :: rest =>
      if c = '\x7d' then some (Json.obj [], rest)
      else if c = '"' then
        (parseStrBody rest).bind fun kr =>
          expectColon (skipWs kr.2) fun r2 =>
            (parseVal fuel (skipWs r2)).bind fun vr =>
              (parsePairsRest fuel (skipWs vr.2)).bind fun tr =>
                some (Json.obj ((String.mk kr.1, vr.1) :: tr.1), tr.2)
      else none

/-- Parse an array body after the opening bracket (input already
whitespace-skipped). -/
def parseArrStart : Nat → List Char → Option (Json × List Char)
  | 0, _ => none
  | fuel + 1, cs =>
    match cs with
    | [] => none
    | c :: rest =>
      if c = ']' then some (Json.arr [], rest)
      else
        (parseVal fuel (c :: rest)).bind fun vr =>
          (parseItemsRest fuel (skipWs vr.2)).bind fun tr =>
            some (Json.arr (vr.1 :: tr.1), tr.2)

/-- Parse the elements after the first one: a closing bracket, or a comma
followed by an element and the remaining elements. -/
def parseItemsRest : Nat → List Char → Option (List Json × List Char)
  | 0, _ => none
  | fuel + 1, cs =>
    match cs with
    | [] => none
    | c :: rest =>
      if c = ']' then some ([], rest)
      else if c = ',' then
        (parseVal fuel (skipWs rest)).bind fun vr =>
          (parseItemsRest fuel (skipWs vr.2)).bind fun tr =>
            some (vr.1 :: tr.1, tr.2)
      else none

/-- Parse the members after the first one: a closing brace, or a comma
followed by a member and the remaining members. -/
def parsePairsRest : Nat → List Char → Option (List (String × Json) × List Char)
  | 0, _ => none
  | fuel + 1, cs =>
    match cs with
    | [] => none
    | c :: rest =>
      if c = '\x7d' then some ([], rest)
      else if c = ',' then
        match skipWs rest with
        | [] => none
        | c1 :: r1 =>
          if c1 = '"' then
            (parseStrBody r1).bind fun kr =>
              expectColon (skipWs kr.2) fun r2 =>
                (parseVal fuel (skipWs r2)).bind fun vr =>
                  (parsePairsRest fuel (skipWs vr.2)).bind fun tr =>
                    some ((String.mk kr.1, vr.1) :: tr.1, tr.2)
          else none
      else none

end

mutual

/-- Fuel sufficient for `parseVal` on the serialization of a value. -/
def needF : Json → Nat
  | .null => 1
  | .bool _ => 1
  | .num _ => 1
  | .str _ => 1
  | .arr [] => 2
  | .arr (x :: xs) => 2 + max (needF x) (needItems xs)
  | .obj [] => 2
  | .obj ((_, v) :: ps) => 2 + max (needF v) (needPairs ps)

/-- Fuel sufficient for `parseItemsRest` on serialized trailing elements. -/
def needItems : List Json → Nat
  | [] => 1
  | x :: xs => 1 + max (needF x) (needItems xs)

/-- Fuel sufficient for `parsePairsRest` on serialized trailing members. -/
def needPairs : List (String × Json) → Nat
  | [] => 1
  | (_, v) :: ps => 1 + max (needF v) (needPairs ps)

end

/-- The model of `JSON.parse`: parse a complete JSON text, tolerating
surrounding whitespace, rejecting trailing garbage. -/
def jsonParse (cs : List Char) : Option Json :=
  match parseVal (cs.length + 1) (skipWs cs) with
  | some (v, rest) => if skipWs rest = [] then some v else none
  | none => none

/-- `dropWhile` never lengthens a list. -/
theorem dropWhile_length_le {α : Type} (p : α → Bool) (l : List α) :
    (l.dropWhile p).length ≤ l.length := by
  induction l with
  | nil => simp
  | cons a l ih =>
    by_cases h : p a <;> simp [List.dropWhile_cons, h] <;> omega

namespace WMTPTransport

/-- JavaScript `String.prototype.trim` on the model's character lists. -/
def trimChars (cs : List Char) : List Char :=
  ((cs.dropWhile isWs).reverse.dropWhile isWs).reverse

/-- The scanner of `text.split(/\}\s*\{/)`: splits at every closing brace
that is followed, ignoring whitespace, by an opening brace, consuming the
matched braces and the whitespace between them.  `acc` holds the current
segment, reversed. -/
def bbSplitAux : List Char → List Char → List (List Char)
  | [], acc => [acc.reverse]
  | c :: rest, acc =>
    if c = '\x7d' then
      match h : skipWs rest with
      | d :: rest2 =>
        if d = '\x7b' then acc.reverse :: bbSplitAux rest2 []
        else bbSplitAux rest (c :: acc)
      | [] => bbSplitAux rest (c :: acc)
    else bbSplitAux rest (c :: acc)
termination_by cs _ => cs.length
decreasing_by
  · have hle : (List.dropWhile isWs rest).length ≤ rest.length :=
      dropWhile_length_le isWs rest
    rw [skipWs] at h
    rw [h] at hle
    simp at hle ⊢
    omega
  · simp
  · simp
  · simp

/-- Fueled, structurally recursive form of the same scanner (the fuel is
an upper bound on the input length, so the zero-fuel case is unreachable);
used so that concrete splits evaluate. -/
def bbSplitFuel : Nat → List Char → List Char → List (List Char)
  | 0, _, acc => [acc.reverse]
  | _ + 1, [], acc => [acc.reverse]
  | fuel + 1, c :: rest, acc =>
    if c = '\x7d' then
      match skipWs rest with
      | d :: rest2 =>
        if d = '\x7b' then acc.reverse :: bbSplitFuel fuel rest2 []
        else bbSplitFuel fuel rest (c :: acc)
      | [] => bbSplitFuel fuel rest (c :: acc)
    else bbSplitFuel fuel rest (c :: acc)

/-- `WMTPTransport._parseMessages`, splitting step (protocol.js line 398). -/
def bbSplit (cs : List Char) : List (List Char) := bbSplitFuel cs.length cs []

/-- Re-insertion of the braces consumed at the split boundaries
(protocol.js lines 401-403): every part but the first regains a leading
opening brace, every part but the last regains a trailing closing brace. -/
def fixPart (n i : Nat) (part : List Char) : List Char :=
  let j := if 0 < i then '\x7b' :: part else part
  if i < n - 1 then j ++ ['\x7d'] else j

/-- One parse attempt per substring of the split, in order (the
`parts.forEach` loop of `_parseMessages`): `some` for a substring that
parses, `none` for one that is dropped with a diagnostic. -/
def parseAttempts (text : List Char) : List (Option Json) :=
  let parts := bbSplit (trimChars text)
  parts.enum.map (fun ip => jsonParse (fixPart parts.length ip.1 ip.2))

/-- `WMTPTransport._parseMessages` (protocol.js lines 396-413): the parsed
messages, in order; substrings that fail to parse are skipped. -/
def parseMessages (text : List Char) : List Json :=
  (parseAttempts text).filterMap id

/-- Number of parse diagnostics (`console.warn` calls) emitted by
`_parseMessages` for a read chunk. -/
def parseFailures (text : List Char) : Nat :=
  ((parseAttempts text).filter (fun o => o.isNone)).length

end WMTPTransport

/-! Support lemmas for the parser/serializer roundtrip. -/

theorem skipWs_cons_of_not_ws {c : Char} (h : isWs c = false) (cs : List Char) :
    skipWs (c :: cs) = c :: cs := by
  simp [skipWs, List.dropWhile_cons, h]

theorem isDig_cases {c : Char} (h : isDig c = true) :
    c = '0' ∨ c = '1' ∨ c = '2' ∨ c = '3' ∨ c = '4' ∨
    c = '5' ∨ c = '6' ∨ c = '7' ∨ c = '8' ∨ c = '9' := by
  simp only [isDig, Bool.or_eq_true, beq_iff_eq] at h
  tauto

theorem digit_facts {c : Char} (h : isDig c = true) :
    isWs c = false ∧ ¬c = 'n' ∧ ¬c = 't' ∧ ¬c = 'f' ∧ ¬c = '"' ∧
    ¬c = '\x7b' ∧ ¬c = '[' ∧ ¬c = '-' ∧ ¬c = ']' ∧ ¬c = ',' ∧
    ¬c = ':' ∧ ¬c = '\x7d' := by
  rcases isDig_cases h with h|h|h|h|h|h|h|h|h|h <;> subst h <;> decide

theorem isDig_digitChar (d : Nat) : isDig (digitChar d) = true := by
  unfold digitChar
  split <;> decide

theorem digitVal_digitChar {d : Nat} (h : d < 10) : digitVal (digitChar d) = d := by
  interval_cases d <;> decide

theorem natToChars_ne_nil (n : Nat) : natToChars n ≠ [] := by
  rw [natToChars]
  split
  · simp
  · simp

theorem natToChars_all_digits (n : Nat) : ∀ c ∈ natToChars n, isDig c = true := by
  induction n using Nat.strong_induction_on with
  | _ n ih =>
    rw [natToChars]
    split
    · intro c hc
      simp only [List.mem_singleton] at hc
      subst hc
      exact isDig_digitChar _
    · next hn =>
      intro c hc
      rw [List.mem_append] at hc
      rcases hc with hc | hc
      · exact ih (n / 10) (by omega) c hc
      · simp only [List.mem_singleton] at hc
        subst hc
        exact isDig_digitChar _

theorem digitsToNat_natToChars (n : Nat) : digitsToNat (natToChars n) = n := by
  induction n using Nat.strong_induction_on with
  | _ n ih =>
    rw [natToChars]
    split
    · next hlt =>
      simp [digitsToNat, digitVal_digitChar hlt]
    · next hn =>
      have h1 : digitsToNat (natToChars (n / 10)) = n / 10 := ih (n / 10) (by omega)
      simp only [digitsToNat, List.foldl_append] at h1 ⊢
      simp only [List.foldl_cons, List.foldl_nil]
      rw [h1, digitVal_digitChar (by omega : n % 10 < 10)]
      omega

theorem takeWhile_append_all {α : Type} {p : α → Bool} {xs : List α}
    (h : ∀ q ∈ xs, p q = true) (ys : List α) :
    (xs ++ ys).takeWhile p = xs ++ ys.takeWhile p := by
  induction xs with
  | nil => rw [List.nil_append, List.nil_append]
  | cons a xs ih =>
    have hmem := h a (List.mem_cons_self a xs)
    have htail := ih fun q hq => h q (List.mem_cons_of_mem a hq)
    rw [List.cons_append, List.takeWhile_cons, if_pos (by rw [hmem]),
        htail, List.cons_append]

theorem dropWhile_append_all {α : Type} {p : α → Bool} {xs : List α}
    (h : ∀ q ∈ xs, p q = true) (ys : List α) :
    (xs ++ ys).dropWhile p = ys.dropWhile p := by
  induction xs with
  | nil => rw [List.nil_append]
  | cons a xs ih =>
    have hmem := h a (List.mem_cons_self a xs)
    have htail := ih fun q hq => h q (List.mem_cons_of_mem a hq)
    rw [List.cons_append, List.dropWhile_cons, if_pos (by rw [hmem]),
        htail]

/-- The next character, if any, is not a digit: the guard under which a
greedy number scan does not run past its end. -/
def headNotDig : List Char → Prop
  | [] => True
  | c :: _ => isDig c = false

instance (cs : List Char) : Decidable (headNotDig cs) := by
  unfold headNotDig
  cases cs <;> infer_instance

theorem takeWhile_isDig_eq_nil {cs : List Char} (h : headNotDig cs) :
    cs.takeWhile isDig = [] := by
  cases cs with
  | nil => rfl
  | cons c cs => simp_all [headNotDig, List.takeWhile_cons]

theorem dropWhile_isDig_eq_self {cs : List Char} (h : headNotDig cs) :
    cs.dropWhile isDig = cs := by
  cases cs with
  | nil => rfl
  | cons c cs => simp_all [headNotDig, List.dropWhile_cons]

theorem parseNatNum_ser (n : Nat) {rest : List Char} (h : headNotDig rest) :
    parseNatNum (natToChars n ++ rest) = some (n, rest) := by
  unfold parseNatNum
  rw [takeWhile_append_all (natToChars_all_digits n),
      dropWhile_append_all (natToChars_all_digits n),
      takeWhile_isDig_eq_nil h, dropWhile_isDig_eq_self h]
  simp [natToChars_ne_nil n, digitsToNat_natToChars]

theorem parseStrBody_ser (s : List Char) (rest : List Char) :
    parseStrBody (serStrBody s ++ '"' :: rest) = some (s, rest) := by
  induction s with
  | nil =>
    show parseStrBody (serStrBody [] ++ '"' :: rest) = _
    unfold serStrBody
    simp only [List.flatMap_nil, List.nil_append]
    unfold parseStrBody
    simp
  | cons c s ih =>
    have hser : serStrBody (c :: s) = escChar c ++ serStrBody s := by
      simp [serStrBody]
    rw [hser, List.append_assoc]
    unfold escChar
    split_ifs with h1 h2 h3 h4 h5 h6 h7
    · subst h1; unfold parseStrBody; simp [unesc, ih]
    · subst h2; unfold parseStrBody; simp [unesc, ih]
    · subst h3; unfold parseStrBody; simp [unesc, ih]
    · subst h4; unfold parseStrBody; simp [unesc, ih]
    · subst h5; unfold parseStrBody; simp [unesc, ih]
    · subst h6; unfold parseStrBody; simp [unesc, ih]
    · subst h7; unfold parseStrBody; simp [unesc, ih]
    · unfold parseStrBody; simp [h1, h2, ih]

theorem dropLit_self (lit rest : List Char) : dropLit lit (lit ++ rest) = some rest := by
  induction lit with
  | nil => rfl
  | cons l ls ih => simp [dropLit, ih]

theorem serVal_head (v : Json) :
    ∃ c tl, serVal v = c :: tl ∧ isWs c = false ∧ ¬c = ']' := by
  cases v with
  | null => exact ⟨'n', _, rfl, by decide, by decide⟩
  | bool b => cases b
              · exact ⟨'f', _, rfl, by decide, by decide⟩
              · exact ⟨'t', _, rfl, by decide, by decide⟩
  | num i =>
    show ∃ c tl, serNum i = c :: tl ∧ _
    unfold serNum
    split_ifs with hi
    · exact ⟨'-', _, rfl, by decide, by decide⟩
    · obtain ⟨c, tl, hc⟩ := List.exists_cons_of_ne_nil (natToChars_ne_nil i.natAbs)
      have hd : isDig c = true := by
        apply natToChars_all_digits i.natAbs
        rw [hc]; exact List.mem_cons_self _ _
      obtain ⟨hws, _, _, _, _, _, _, _, hrb, _, _, _⟩ := digit_facts hd
      exact ⟨c, tl, hc, hws, hrb⟩
  | str s => exact ⟨'"', _, rfl, by decide, by decide⟩
  | arr elems =>
    cases elems with
    | nil => exact ⟨'[', _, rfl, by decide, by decide⟩
    | cons x xs => exact ⟨'[', _, rfl, by decide, by decide⟩
  | obj fields =>
    cases fields with
    | nil => exact ⟨'\x7b', _, rfl, by decide, by decide⟩
    | cons p ps =>
      obtain ⟨k, w⟩ := p
      exact ⟨'\x7b', _, rfl, by decide, by decide⟩

theorem needF_pos (v : Json) : 1 ≤ needF v := by
  cases v with
  | arr elems => cases elems <;> simp [needF] <;> omega
  | obj fields => cases fields with
                  | nil => simp [needF]
                  | cons p ps => obtain ⟨k, w⟩ := p; simp [needF]; omega
  | null => simp [needF]
  | bool b => simp [needF]
  | num i => simp [needF]
  | str s => simp [needF]

theorem needItems_pos (xs : List Json) : 1 ≤ needItems xs := by
  cases xs <;> simp [needItems] <;> omega

theorem needPairs_pos (ps : List (String × Json)) : 1 ≤ needPairs ps := by
  cases ps with
  | nil => simp [needPairs]
  | cons p ps => obtain ⟨k, w⟩ := p; simp [needPairs]

mutual

theorem needF_le_len (v : Json) : needF v ≤ (serVal v).length + 1 := by
  match v with
  | .null => simp [needF, serVal]
  | .bool true => simp [needF, serVal]
  | .bool false => simp [needF, serVal]
  | .num i => simp [needF, serVal]
  | .str s => simp [needF, serVal]
  | .arr [] => simp [needF, serVal]
  | .arr (x :: xs) =>
    have h1 := needF_le_len x
    have h2 := needItems_le_len xs
    have hm : max (needF x) (needItems xs) ≤
        (serVal x).length + (serItems xs).length + 1 :=
      Nat.max_le.mpr ⟨by omega, by omega⟩
    simp [needF, serVal, List.length_append]
    omega
  | .obj [] => simp [needF, serVal]
  | .obj ((k, w) :: ps) =>
    have h1 := needF_le_len w
    have h2 := needPairs_le_len ps
    have hm : max (needF w) (needPairs ps) ≤
        (serVal w).length + (serPairs ps).length + 1 :=
      Nat.max_le.mpr ⟨by omega, by omega⟩
    simp [needF, serVal, serStr, List.length_append]
    omega

theorem needItems_le_len (xs : List Json) : needItems xs ≤ (serItems xs).length + 1 := by
  match xs with
  | [] => simp [needItems, serItems]
  | x :: xs =>
    have h1 := needF_le_len x
    have h2 := needItems_le_len xs
    have hm : max (needF x) (needItems xs) ≤
        (serVal x).length + (serItems xs).length + 1 :=
      Nat.max_le.mpr ⟨by omega, by omega⟩
    simp [needItems, serItems, List.length_append]
    omega

theorem needPairs_le_len (ps : List (String × Json)) :
    needPairs ps ≤ (serPairs ps).length + 1 := by
  match ps with
  | [] => simp [needPairs, serPairs]
  | (k, w) :: ps =>
    have h1 := needF_le_len w
    have h2 := needPairs_le_len ps
    have hm : max (needF w) (needPairs ps) ≤
        (serVal w).length + (serPairs ps).length + 1 :=
      Nat.max_le.mpr ⟨by omega, by omega⟩
    simp [needPairs, serPairs, serStr, List.length_append]
    omega

end

theorem headNotDig_serItems (xs : List Json) (rest : List Char) :
    headNotDig (serItems xs ++ ']' :: rest) := by
  cases xs with
  | nil =>
    show headNotDig (serItems [] ++ ']' :: rest)
    rw [show serItems [] = [] from rfl, List.nil_append]
    show isDig ']' = false
    decide
  | cons x xs =>
    rw [show serItems (x :: xs) = ',' :: serVal x ++ serItems xs from rfl]
    show isDig ',' = false
    decide

theorem headNotDig_serPairs (ps : List (String × Json)) (rest : List Char) :
    headNotDig (serPairs ps ++ '\x7d' :: rest) := by
  cases ps with
  | nil =>
    rw [show serPairs [] = [] from rfl, List.nil_append]
    show isDig '\x7d' = false
    decide
  | cons p ps =>
    obtain ⟨k, w⟩ := p
    rw [show serPairs ((k, w) :: ps) =
      ',' :: serStr k.data ++ ':' :: serVal w ++ serPairs ps from rfl]
    show isDig ',' = false
    decide

theorem skipWs_serItems (xs : List Json) (rest : List Char) :
    skipWs (serItems xs ++ ']' :: rest) = serItems xs ++ ']' :: rest := by
  cases xs with
  | nil =>
    rw [show serItems [] = [] from rfl, List.nil_append]
    exact skipWs_cons_of_not_ws (by decide) rest
  | cons x xs =>
    rw [show serItems (x :: xs) = ',' :: serVal x ++ serItems xs from rfl]
    rw [List.cons_append]
    exact skipWs_cons_of_not_ws (by decide) _

theorem skipWs_serPairs (ps : List (String × Json)) (rest : List Char) :
    skipWs (serPairs ps ++ '\x7d' :: rest) = serPairs ps ++ '\x7d' :: rest := by
  cases ps with
  | nil =>
    rw [show serPairs [] = [] from rfl, List.nil_append]
    exact skipWs_cons_of_not_ws (by decide) rest
  | cons p ps =>
    obtain ⟨k, w⟩ := p
    rw [show serPairs ((k, w) :: ps) =
      ',' :: serStr k.data ++ ':' :: serVal w ++ serPairs ps from rfl]
    rw [List.cons_append]
    exact skipWs_cons_of_not_ws (by decide) _

theorem skipWs_serVal (v : Json) (rest : List Char) :
    skipWs (serVal v ++ rest) = serVal v ++ rest := by
  obtain ⟨c, tl, hc, hws, _⟩ := serVal_head v
  rw [hc, List.cons_append]
  exact skipWs_cons_of_not_ws hws _

/-- Guard needed by the greedy number scan: when the value is a number,
the following text must not begin with a digit. -/
def digitGuard (v : Json) (rest : List Char) : Prop :=
  match v with
  | .num _ => headNotDig rest
  | _ => True

theorem digitGuard_of_headNotDig {v : Json} {rest : List Char}
    (h : headNotDig rest) : digitGuard v rest := by
  cases v <;> first | exact trivial | exact h

theorem serStr_append (s : List Char) (B : List Char) :
    serStr s ++ B = '"' :: (serStrBody s ++ '"' :: B) := by
  simp [serStr, List.append_assoc]

/-! Single-step reduction equations for the parser. -/

theorem parseVal_n (G : Nat) (cs : List Char) :
    parseVal (G + 1) ('n' :: cs) =
      (dropLit ['u', 'l', 'l'] cs).map (fun r => (Json.null, r)) := rfl

theorem parseVal_t (G : Nat) (cs : List Char) :
    parseVal (G + 1) ('t' :: cs) =
      (dropLit ['r', 'u', 'e'] cs).map (fun r => (Json.bool true, r)) := rfl

theorem parseVal_f (G : Nat) (cs : List Char) :
    parseVal (G + 1) ('f' :: cs) =
      (dropLit ['a', 'l', 's', 'e'] cs).map (fun r => (Json.bool false, r)) := rfl

theorem parseVal_quote (G : Nat) (cs : List Char) :
    parseVal (G + 1) ('"' :: cs) =
      (parseStrBody cs).map (fun p => (Json.str (String.mk p.1), p.2)) := rfl

theorem parseVal_lbrace (G : Nat) (cs : List Char) :
    parseVal (G + 1) ('\x7b' :: cs) = parseObjStart G (skipWs cs) := rfl

theorem parseVal_lbracket (G : Nat) (cs : List Char) :
    parseVal (G + 1) ('[' :: cs) = parseArrStart G (skipWs cs) := rfl

theorem parseVal_minus (G : Nat) (cs : List Char) :
    parseVal (G + 1) ('-' :: cs) =
      (parseNatNum cs).map (fun p => (Json.num (-(p.1 : Int)), p.2)) := rfl

theorem parseVal_digit {c : Char} (hd : isDig c = true) (G : Nat) (cs : List Char) :
    parseVal (G + 1) (c :: cs) =
      (parseNatNum (c :: cs)).map (fun p => (Json.num (p.1 : Int), p.2)) := by
  obtain ⟨_, hn, ht, hf, hq, hob, hlb, hmi, _, _, _, _⟩ := digit_facts hd
  unfold parseVal
  simp [hn, ht, hf, hq, hob, hlb, hmi, hd]

theorem parseArrStart_rbracket (G : Nat) (rest : List Char) :
    parseArrStart (G + 1) (']' :: rest) = some (Json.arr [], rest) := rfl

theorem parseArrStart_cons {c : Char} (h : ¬c = ']') (G : Nat) (cs : List Char) :
    parseArrStart (G + 1) (c :: cs) =
      (parseVal G (c :: cs)).bind fun vr =>
        (parseItemsRest G (skipWs vr.2)).bind fun tr =>
          some (Json.arr (vr.1 :: tr.1), tr.2) := by
  unfold parseArrStart
  simp [h]

theorem parseObjStart_rbrace (G : Nat) (rest : List Char) :
    parseObjStart (G + 1) ('\x7d' :: rest) = some (Json.obj [], rest) := rfl

/-- Reduction of `parseObjStart` on a serialized first member. -/
theorem parseObjStart_keyval (G : Nat) (k X : List Char) :
    parseObjStart (G + 1) ('"' :: (serStrBody k ++ '"' :: ':' :: X)) =
      (parseVal G (skipWs X)).bind fun vr =>
        (parsePairsRest G (skipWs vr.2)).bind fun tr =>
          some (Json.obj ((String.mk k, vr.1) :: tr.1), tr.2) := by
  have h2 : skipWs (':' :: X) = ':' :: X := skipWs_cons_of_not_ws (by decide) _
  unfold parseObjStart
  simp [parseStrBody_ser, expectColon, h2]

theorem parseItemsRest_rbracket (G : Nat) (rest : List Char) :
    parseItemsRest (G + 1) (']' :: rest) = some ([], rest) := rfl

theorem parseItemsRest_comma (G : Nat) (rest : List Char) :
    parseItemsRest (G + 1) (',' :: rest) =
      (parseVal G (skipWs rest)).bind fun vr =>
        (parseItemsRest G (skipWs vr.2)).bind fun tr =>
          some (vr.1 :: tr.1, tr.2) := rfl

theorem parsePairsRest_rbrace (G : Nat) (rest : List Char) :
    parsePairsRest (G + 1) ('\x7d' :: rest) = some ([], rest) := rfl

/-- Reduction of `parsePairsRest` on a serialized next member. -/
theorem parsePairsRest_keyval (G : Nat) (k X : List Char) :
    parsePairsRest (G + 1) (',' :: '"' :: (serStrBody k ++ '"' :: ':' :: X)) =
      (parseVal G (skipWs X)).bind fun vr =>
        (parsePairsRest G (skipWs vr.2)).bind fun tr =>
          some ((String.mk k, vr.1) :: tr.1, tr.2) := by
  have h1 : skipWs ('"' :: (serStrBody k ++ '"' :: ':' :: X)) =
      '"' :: (serStrBody k ++ '"' :: ':' :: X) :=
    skipWs_cons_of_not_ws (by decide) _
  have h2 : skipWs (':' :: X) = ':' :: X := skipWs_cons_of_not_ws (by decide) _
  conv_lhs => unfold parsePairsRest
  simp [h1, h2, parseStrBody_ser, expectColon]

theorem stringMk_data (s : String) : String.mk s.data = s := rfl

/-- Parsing inverts serialization: with enough fuel, `parseVal` consumes
exactly the serialization of a value and returns that value, and the two
element/member loops do the same for serialized tails. -/
theorem parse_ser_aux (F : Nat) :
    (∀ (v : Json) (rest : List Char), needF v ≤ F → digitGuard v rest →
      parseVal F (serVal v ++ rest) = some (v, rest)) ∧
    (∀ (xs : List Json) (rest : List Char), needItems xs ≤ F →
      parseItemsRest F (serItems xs ++ ']' :: rest) = some (xs, rest)) ∧
    (∀ (ps : List (String × Json)) (rest : List Char), needPairs ps ≤ F →
      parsePairsRest F (serPairs ps ++ '\x7d' :: rest) = some (ps, rest)) := by
  induction F using Nat.strong_induction_on with
  | _ F ih =>
  refine ⟨?_, ?_, ?_⟩
  · intro v rest hF hg
    obtain ⟨G, rfl⟩ : ∃ G, F = G + 1 :=
      ⟨F - 1, by have := needF_pos v; omega⟩
    match v with
    | .null =>
      rw [show serVal Json.null = ['n', 'u', 'l', 'l'] from rfl]
      simp only [List.cons_append, List.nil_append]
      rw [parseVal_n]
      simp [dropLit]
    | .bool true =>
      rw [show serVal (Json.bool true) = ['t', 'r', 'u', 'e'] from rfl]
      simp only [List.cons_append, List.nil_append]
      rw [parseVal_t]
      simp [dropLit]
    | .bool false =>
      rw [show serVal (Json.bool false) = ['f', 'a', 'l', 's', 'e'] from rfl]
      simp only [List.cons_append, List.nil_append]
      rw [parseVal_f]
      simp [dropLit]
    | .num i =>
      have hg' : headNotDig rest := hg
      rw [show serVal (Json.num i) = serNum i from rfl]
      unfold serNum
      by_cases hi : i < 0
      · rw [if_pos hi, List.cons_append, parseVal_minus,
            parseNatNum_ser i.natAbs hg']
        simp only [Option.map_some', Option.some.injEq, Prod.mk.injEq]
        refine ⟨?_, trivial⟩
        congr 1
        omega
      · rw [if_neg hi]
        obtain ⟨c, tl, hc⟩ := List.exists_cons_of_ne_nil (natToChars_ne_nil i.natAbs)
        have hd : isDig c = true := by
          apply natToChars_all_digits i.natAbs
          rw [hc]; exact List.mem_cons_self _ _
        rw [hc, List.cons_append, parseVal_digit hd, ← List.cons_append, ← hc,
            parseNatNum_ser i.natAbs hg']
        simp only [Option.map_some', Option.some.injEq, Prod.mk.injEq]
        refine ⟨?_, trivial⟩
        congr 1
        omega
    | .str s =>
      rw [show serVal (Json.str s) = serStr s.data from rfl, serStr_append,
          parseVal_quote, parseStrBody_ser]
      simp only [Option.map_some']
    | .arr [] =>
      have hG : 1 ≤ G := by
        have h2 : needF (Json.arr []) = 2 := rfl
        omega
      obtain ⟨G2, rfl⟩ : ∃ G2, G = G2 + 1 := ⟨G - 1, by omega⟩
      rw [show serVal (Json.arr []) = ['[', ']'] from rfl]
      simp only [List.cons_append, List.nil_append]
      rw [parseVal_lbracket, skipWs_cons_of_not_ws (by decide),
          parseArrStart_rbracket]
    | .arr (x :: xs) =>
      have hneed : needF (Json.arr (x :: xs)) =
          2 + max (needF x) (needItems xs) := rfl
      rw [hneed] at hF
      obtain ⟨G2, rfl⟩ : ∃ G2, G = G2 + 1 := ⟨G - 1, by omega⟩
      have hmax : max (needF x) (needItems xs) ≤ G2 := by omega
      have hx : needF x ≤ G2 := le_trans (Nat.le_max_left _ _) hmax
      have hxs : needItems xs ≤ G2 := le_trans (Nat.le_max_right _ _) hmax
      rw [show serVal (Json.arr (x :: xs)) =
        '[' :: (serVal x ++ serItems xs ++ [']']) from rfl]
      rw [List.cons_append, parseVal_lbracket]
      rw [show (serVal x ++ serItems xs ++ [']']) ++ rest =
        serVal x ++ (serItems xs ++ ']' :: rest) by simp [List.append_assoc]]
      rw [skipWs_serVal]
      obtain ⟨c, tl, hc, _, hnb⟩ := serVal_head x
      have ihx : parseVal G2 (serVal x ++ (serItems xs ++ ']' :: rest)) =
          some (x, serItems xs ++ ']' :: rest) :=
        (ih G2 (by omega)).1 x _ hx
          (digitGuard_of_headNotDig (headNotDig_serItems xs rest))
      have ihxs2 : parseItemsRest G2 (serItems xs ++ ']' :: rest) =
          some (xs, rest) := (ih G2 (by omega)).2.1 xs rest hxs
      rw [hc, List.cons_append, parseArrStart_cons hnb, ← List.cons_append, ← hc]
      rw [ihx]
      simp [skipWs_serItems, ihxs2]
    | .obj [] =>
      have hG : 1 ≤ G := by
        have h2 : needF (Json.obj []) = 2 := rfl
        omega
      obtain ⟨G2, rfl⟩ : ∃ G2, G = G2 + 1 := ⟨G - 1, by omega⟩
      rw [show serVal (Json.obj []) = ['\x7b', '\x7d'] from rfl]
      simp only [List.cons_append, List.nil_append]
      rw [parseVal_lbrace, skipWs_cons_of_not_ws (by decide),
          parseObjStart_rbrace]
    | .obj ((k, w) :: ps) =>
      have hneed : needF (Json.obj ((k, w) :: ps)) =
          2 + max (needF w) (needPairs ps) := rfl
      rw [hneed] at hF
      obtain ⟨G2, rfl⟩ : ∃ G2, G = G2 + 1 := ⟨G - 1, by omega⟩
      have hmax : max (needF w) (needPairs ps) ≤ G2 := by omega
      have hw : needF w ≤ G2 := le_trans (Nat.le_max_left _ _) hmax
      have hps : needPairs ps ≤ G2 := le_trans (Nat.le_max_right _ _) hmax
      rw [show serVal (Json.obj ((k, w) :: ps)) =
        '\x7b' :: (serStr k.data ++ ':' :: serVal w ++ serPairs ps ++ ['\x7d'])
        from rfl]
      rw [List.cons_append, parseVal_lbrace]
      rw [show (serStr k.data ++ ':' :: serVal w ++ serPairs ps ++ ['\x7d']) ++ rest
        = serStr k.data ++ ':' :: (serVal w ++ (serPairs ps ++ '\x7d' :: rest))
        by simp [List.append_assoc]]
      have ihw : parseVal G2 (serVal w ++ (serPairs ps ++ '\x7d' :: rest)) =
          some (w, serPairs ps ++ '\x7d' :: rest) :=
        (ih G2 (by omega)).1 w _ hw
          (digitGuard_of_headNotDig (headNotDig_serPairs ps rest))
      have ihp : parsePairsRest G2 (serPairs ps ++ '\x7d' :: rest) =
          some (ps, rest) := (ih G2 (by omega)).2.2 ps rest hps
      rw [serStr_append, skipWs_cons_of_not_ws (by decide), parseObjStart_keyval]
      rw [skipWs_serVal, ihw]
      simp [skipWs_serPairs, ihp, stringMk_data]
  · intro xs rest hF
    obtain ⟨G, rfl⟩ : ∃ G, F = G + 1 :=
      ⟨F - 1, by have := needItems_pos xs; omega⟩
    match xs with
    | [] =>
      rw [show serItems ([] : List Json) = [] from rfl, List.nil_append,
          parseItemsRest_rbracket]
    | x :: xs =>
      have hneed : needItems (x :: xs) = 1 + max (needF x) (needItems xs) := rfl
      rw [hneed] at hF
      have hmax : max (needF x) (needItems xs) ≤ G := by omega
      have hx : needF x ≤ G := le_trans (Nat.le_max_left _ _) hmax
      have hxs : needItems xs ≤ G := le_trans (Nat.le_max_right _ _) hmax
      rw [show serItems (x :: xs) = ',' :: serVal x ++ serItems xs from rfl]
      rw [show (',' :: serVal x ++ serItems xs) ++ ']' :: rest =
        ',' :: (serVal x ++ (serItems xs ++ ']' :: rest))
        by simp [List.append_assoc]]
      have ihx : parseVal G (serVal x ++ (serItems xs ++ ']' :: rest)) =
          some (x, serItems xs ++ ']' :: rest) :=
        (ih G (by omega)).1 x _ hx
          (digitGuard_of_headNotDig (headNotDig_serItems xs rest))
      have ihxs2 : parseItemsRest G (serItems xs ++ ']' :: rest) =
          some (xs, rest) := (ih G (by omega)).2.1 xs rest hxs
      rw [parseItemsRest_comma, skipWs_serVal, ihx]
      simp [skipWs_serItems, ihxs2]
  · intro ps rest hF
    obtain ⟨G, rfl⟩ : ∃ G, F = G + 1 :=
      ⟨F - 1, by have := needPairs_pos ps; omega⟩
    match ps with
    | [] =>
      rw [show serPairs ([] : List (String × Json)) = [] from rfl,
          List.nil_append, parsePairsRest_rbrace]
    | (k, w) :: ps =>
      have hneed : needPairs ((k, w) :: ps) =
          1 + max (needF w) (needPairs ps) := rfl
      rw [hneed] at hF
      have hmax : max (needF w) (needPairs ps) ≤ G := by omega
      have hw : needF w ≤ G := le_trans (Nat.le_max_left _ _) hmax
      have hps : needPairs ps ≤ G := le_trans (Nat.le_max_right _ _) hmax
      rw [show serPairs ((k, w) :: ps) =
        ',' :: serStr k.data ++ ':' :: serVal w ++ serPairs ps from rfl]
      rw [show (',' :: serStr k.data ++ ':' :: serVal w ++ serPairs ps) ++
          '\x7d' :: rest =
        ',' :: (serStr k.data ++ ':' :: (serVal w ++ (serPairs ps ++ '\x7d' :: rest)))
        by simp [List.append_assoc]]
      have ihw : parseVal G (serVal w ++ (serPairs ps ++ '\x7d' :: rest)) =
          some (w, serPairs ps ++ '\x7d' :: rest) :=
        (ih G (by omega)).1 w _ hw
          (digitGuard_of_headNotDig (headNotDig_serPairs ps rest))
      have ihp : parsePairsRest G (serPairs ps ++ '\x7d' :: rest) =
          some (ps, rest) := (ih G (by omega)).2.2 ps rest hps
      rw [serStr_append, parsePairsRest_keyval, skipWs_serVal, ihw]
      simp [skipWs_serPairs, ihp, stringMk_data]

/-- `JSON.parse` inverts `JSON.stringify` in the model. -/
theorem jsonParse_serVal (v : Json) : jsonParse (serVal v) = some v := by
  unfold jsonParse
  have hskip : skipWs (serVal v) = serVal v := by
    have h := skipWs_serVal v []
    simpa using h
  rw [hskip]
  have h := (parse_ser_aux ((serVal v).length + 1)).1 v []
      (le_trans (needF_le_len v) (by omega))
      (digitGuard_of_headNotDig (by show True; trivial))
  rw [List.append_nil] at h
  rw [h]
  simp [skipWs]

/-! Support lemmas for the brace-boundary splitter. -/

theorem skipWs_append_of_ne_nil {a : List Char} {d : Char} {r : List Char}
    (h : skipWs a = d :: r) (b : List Char) :
    skipWs (a ++ b) = d :: (r ++ b) := by
  induction a with
  | nil => simp [skipWs] at h
  | cons x a ih =>
    rw [skipWs, List.dropWhile_cons] at h
    rw [skipWs, List.cons_append, List.dropWhile_cons]
    by_cases hx : isWs x
    · rw [if_pos (by simp [hx])] at h ⊢
      exact ih h
    · rw [if_neg (by simp [hx])] at h ⊢
      cases h
      simp

theorem skipWs_append_singleton_ne_nil {b : Char} (hb : isWs b = false)
    (a : List Char) : skipWs (a ++ [b]) ≠ [] := by
  induction a with
  | nil => simp [skipWs, List.dropWhile_cons, hb]
  | cons x a ih =>
    rw [List.cons_append, skipWs, List.dropWhile_cons]
    by_cases hx : isWs x
    · rw [if_pos (by simp [hx])]
      exact ih
    · rw [if_neg (by simp [hx])]
      simp

namespace WMTPTransport

theorem bbSplitAux_nil (acc : List Char) : bbSplitAux [] acc = [acc.reverse] := by
  unfold bbSplitAux
  rfl

theorem bbSplitAux_boundary {rest rest2 : List Char}
    (h : skipWs rest = '\x7b' :: rest2) (acc : List Char) :
    bbSplitAux ('\x7d' :: rest) acc = acc.reverse :: bbSplitAux rest2 [] := by
  conv_lhs => unfold bbSplitAux
  rw [if_pos rfl]
  split
  · next d r2 heq =>
    rw [h] at heq
    injection heq with h1 h2
    subst h1
    subst h2
    rw [if_pos rfl]
  · next heq =>
    rw [h] at heq
    exact absurd heq (by simp)

theorem bbSplitAux_brace_skip {rest : List Char} {d : Char} {rest2 : List Char}
    (h : skipWs rest = d :: rest2) (hd : ¬d = '\x7b') (acc : List Char) :
    bbSplitAux ('\x7d' :: rest) acc = bbSplitAux rest ('\x7d' :: acc) := by
  conv_lhs => unfold bbSplitAux
  rw [if_pos rfl]
  split
  · next d' r2 heq =>
    rw [h] at heq
    injection heq with h1 h2
    subst h1
    subst h2
    rw [if_neg hd]
  · next heq =>
    rw [h] at heq

theorem bbSplitAux_brace_nil {rest : List Char} (h : skipWs rest = [])
    (acc : List Char) :
    bbSplitAux ('\x7d' :: rest) acc = bbSplitAux rest ('\x7d' :: acc) := by
  conv_lhs => unfold bbSplitAux
  rw [if_pos rfl]
  split
  next d' r2 heq =>
    rw [h] at heq
    exact absurd heq.symm (by simp)
  try rfl

theorem bbSplitAux_cons {c : Char} (hc : ¬c = '\x7d') (rest acc : List Char) :
    bbSplitAux (c :: rest) acc = bbSplitAux rest (c :: acc) := by
  conv_lhs => unfold bbSplitAux
  rw [if_neg hc]

theorem bbSplitAux_ne_nil (cs acc : List Char) : bbSplitAux cs acc ≠ [] := by
  induction cs, acc using bbSplitAux.induct with
  | case1 acc => simp [bbSplitAux_nil]
  | case2 rest acc rest2 h ih =>
    rw [bbSplitAux_boundary h]
    simp
  | case3 rest acc d rest2 h hd ih =>
    rw [bbSplitAux_brace_skip h hd]
    exact ih
  | case4 rest acc h ih =>
    rw [bbSplitAux_brace_nil h]
    exact ih
  | case5 c rest acc hc ih =>
    rw [bbSplitAux_cons hc]
    exact ih

theorem bbSplitAux_acc : ∀ (n : Nat) (cs : List Char), cs.length ≤ n →
    ∀ (acc p : List Char) (ps : List (List Char)),
      bbSplitAux cs [] = p :: ps →
      bbSplitAux cs acc = (acc.reverse ++ p) :: ps := by
  intro n
  induction n with
  | zero =>
    intro cs hlen acc p ps h0
    have hnil : cs = [] := by
      cases cs
      · rfl
      · simp at hlen
    subst hnil
    rw [bbSplitAux_nil] at h0
    injection h0 with hp hps
    rw [bbSplitAux_nil, ← hp, ← hps]
    simp
  | succ n ih =>
    intro cs hlen acc p ps h0
    match cs with
    | [] =>
      rw [bbSplitAux_nil] at h0
      injection h0 with hp hps
      rw [bbSplitAux_nil, ← hp, ← hps]
      simp
    | c :: rest =>
      have hrest : rest.length ≤ n := by simp at hlen; omega
      by_cases hc : c = '\x7d'
      · subst hc
        rcases hsw : skipWs rest with _ | ⟨d, rest2⟩
        · rw [bbSplitAux_brace_nil hsw] at h0 ⊢
          obtain ⟨q, qs, hq⟩ := List.exists_cons_of_ne_nil (bbSplitAux_ne_nil rest [])
          rw [ih rest hrest _ q qs hq] at h0
          injection h0 with hp hps
          rw [ih rest hrest _ q qs hq, ← hp, ← hps]
          simp
        · by_cases hd : d = '\x7b'
          · subst hd
            rw [bbSplitAux_boundary hsw] at h0 ⊢
            injection h0 with hp hps
            rw [← hp, ← hps]
            simp
          · rw [bbSplitAux_brace_skip hsw hd] at h0 ⊢
            obtain ⟨q, qs, hq⟩ :=
              List.exists_cons_of_ne_nil (bbSplitAux_ne_nil rest [])
            rw [ih rest hrest _ q qs hq] at h0
            injection h0 with hp hps
            rw [ih rest hrest _ q qs hq, ← hp, ← hps]
            simp
      · rw [bbSplitAux_cons hc] at h0 ⊢
        obtain ⟨q, qs, hq⟩ := List.exists_cons_of_ne_nil (bbSplitAux_ne_nil rest [])
        rw [ih rest hrest _ q qs hq] at h0
        injection h0 with hp hps
        rw [ih rest hrest _ q qs hq, ← hp, ← hps]
        simp

theorem bbSplitAux_junction : ∀ (xs acc ys : List Char),
    bbSplitAux (xs ++ ['\x7d']) acc = [acc.reverse ++ xs ++ ['\x7d']] →
    bbSplitAux (xs ++ '\x7d' :: '\x7b' :: ys) acc =
      (acc.reverse ++ xs) :: bbSplitAux ys [] := by
  intro xs
  induction xs with
  | nil =>
    intro acc ys _
    have hsw : skipWs ('\x7b' :: ys) = '\x7b' :: ys :=
      skipWs_cons_of_not_ws (by decide) _
    rw [List.nil_append, bbSplitAux_boundary hsw]
    simp
  | cons x xs ihx =>
    intro acc ys H
    by_cases hx : x = '\x7d'
    · subst hx
      have hne : skipWs (xs ++ ['\x7d']) ≠ [] :=
        skipWs_append_singleton_ne_nil (by decide) xs
      obtain ⟨d, r2, hsw⟩ := List.exists_cons_of_ne_nil hne
      have hsw2 : skipWs (xs ++ '\x7d' :: '\x7b' :: ys) =
          d :: (r2 ++ '\x7b' :: ys) := by
        have h := skipWs_append_of_ne_nil hsw ('\x7b' :: ys)
        rwa [List.append_assoc, List.singleton_append] at h
      by_cases hd : d = '\x7b'
      · subst hd
        exfalso
        rw [show ('\x7d' :: xs) ++ ['\x7d'] = '\x7d' :: (xs ++ ['\x7d']) from rfl,
            bbSplitAux_boundary hsw] at H
        injection H with h1 h2
        exact bbSplitAux_ne_nil r2 [] h2
      · rw [show ('\x7d' :: xs) ++ ['\x7d'] = '\x7d' :: (xs ++ ['\x7d']) from rfl,
            bbSplitAux_brace_skip hsw hd] at H
        rw [show ('\x7d' :: xs) ++ '\x7d' :: '\x7b' :: ys =
              '\x7d' :: (xs ++ '\x7d' :: '\x7b' :: ys) from rfl,
            bbSplitAux_brace_skip hsw2 hd]
        have H' : bbSplitAux (xs ++ ['\x7d']) ('\x7d' :: acc) =
            [('\x7d' :: acc).reverse ++ xs ++ ['\x7d']] := by
          rw [H]
          simp
        rw [ihx ('\x7d' :: acc) ys H']
        simp
    · rw [show (x :: xs) ++ ['\x7d'] = x :: (xs ++ ['\x7d']) from rfl,
          bbSplitAux_cons hx] at H
      rw [show (x :: xs) ++ '\x7d' :: '\x7b' :: ys =
            x :: (xs ++ '\x7d' :: '\x7b' :: ys) from rfl,
          bbSplitAux_cons hx]
      have H' : bbSplitAux (xs ++ ['\x7d']) (x :: acc) =
          [(x :: acc).reverse ++ xs ++ ['\x7d']] := by
        rw [H]
        simp
      rw [ihx (x :: acc) ys H']
      simp


/-- One step of the fueled scanner. -/
theorem bbSplitFuel_succ_cons (n : Nat) (c : Char) (rest acc : List Char) :
    bbSplitFuel (n + 1) (c :: rest) acc =
      if c = '\x7d' then
        match skipWs rest with
        | d :: rest2 =>
          if d = '\x7b' then acc.reverse :: bbSplitFuel n rest2 []
          else bbSplitFuel n rest (c :: acc)
        | [] => bbSplitFuel n rest (c :: acc)
      else bbSplitFuel n rest (c :: acc) := rfl

/-- The fueled scanner agrees with the recursive one when the fuel bounds
the input length. -/
theorem bbSplitFuel_eq : ∀ (fuel : Nat) (cs : List Char), cs.length ≤ fuel →
    ∀ acc, bbSplitFuel fuel cs acc = bbSplitAux cs acc := by
  intro fuel
  induction fuel with
  | zero =>
    intro cs hlen acc
    have hnil : cs = [] := by
      cases cs
      · rfl
      · simp at hlen
    subst hnil
    rw [bbSplitAux_nil]
    rfl
  | succ n ih =>
    intro cs hlen acc
    match cs with
    | [] => rw [bbSplitAux_nil]; rfl
    | c :: rest =>
      have hrest : rest.length ≤ n := by simp at hlen; omega
      rw [bbSplitFuel_succ_cons]
      by_cases hc : c = '\x7d'
      · subst hc
        rw [if_pos rfl]
        rcases hsw : skipWs rest with _ | ⟨d, rest2⟩
        · rw [bbSplitAux_brace_nil hsw]
          exact ih rest hrest _
        · have hr2 : rest2.length ≤ n := by
            have h1 : (List.dropWhile isWs rest).length ≤ rest.length :=
              dropWhile_length_le isWs rest
            rw [skipWs] at hsw
            rw [hsw] at h1
            simp at h1
            omega
          by_cases hd : d = '\x7b'
          · subst hd
            rw [bbSplitAux_boundary hsw]
            dsimp only
            rw [if_pos rfl]
            rw [ih rest2 hr2]
          · rw [bbSplitAux_brace_skip hsw hd]
            dsimp only
            rw [if_neg hd]
            exact ih rest hrest _
      · rw [if_neg hc, bbSplitAux_cons hc]
        exact ih rest hrest _

/-- `bbSplit` computes the recursive scanner. -/
theorem bbSplit_eq_aux (cs : List Char) : bbSplit cs = bbSplitAux cs [] :=
  bbSplitFuel_eq cs.length cs le_rfl []


/-- Splitting a concatenation of two brace-delimited texts with no internal
boundary splits exactly at the junction. -/
theorem bbSplit_concat (M1 M2 : List Char)
    (h1 : bbSplit ('\x7b' :: (M1 ++ ['\x7d'])) = ['\x7b' :: (M1 ++ ['\x7d'])])
    (h2 : bbSplit ('\x7b' :: (M2 ++ ['\x7d'])) = ['\x7b' :: (M2 ++ ['\x7d'])]) :
    bbSplit (('\x7b' :: (M1 ++ ['\x7d'])) ++ ('\x7b' :: (M2 ++ ['\x7d']))) =
      ['\x7b' :: M1, M2 ++ ['\x7d']] := by
  rw [bbSplit_eq_aux] at h1 h2 ⊢
  rw [bbSplitAux_cons (by decide)] at h1 h2
  obtain ⟨q, qs, hq⟩ :=
    List.exists_cons_of_ne_nil (bbSplitAux_ne_nil (M2 ++ ['\x7d']) [])
  have hacc := bbSplitAux_acc (M2 ++ ['\x7d']).length (M2 ++ ['\x7d'])
    le_rfl ['\x7b'] q qs hq
  rw [hacc] at h2
  have hqv : q = M2 ++ ['\x7d'] := by
    injection h2 with ha _
    simpa using ha
  have hqs : qs = [] := by
    injection h2
  rw [show ('\x7b' :: (M1 ++ ['\x7d'])) ++ ('\x7b' :: (M2 ++ ['\x7d'])) =
        '\x7b' :: (M1 ++ '\x7d' :: '\x7b' :: (M2 ++ ['\x7d'])) by simp]
  rw [bbSplitAux_cons (by decide)]
  rw [bbSplitAux_junction M1 ['\x7b'] (M2 ++ ['\x7d']) (by rw [h1]; simp)]
  rw [hq, hqv, hqs]
  simp

/-- `trim` is the identity on a text with non-whitespace first and last
characters. -/
theorem trimChars_eq_self {L : List Char} {c : Char} {tl init : List Char}
    {d : Char} (hhead : L = c :: tl) (hc : isWs c = false)
    (hlast : L = init ++ [d]) (hd : isWs d = false) :
    trimChars L = L := by
  unfold trimChars
  have h1 : List.dropWhile isWs L = L := by
    rw [hhead, List.dropWhile_cons]
    simp [hc]
  rw [h1, hlast]
  have h2 : (init ++ [d]).reverse = d :: init.reverse := by simp
  rw [h2, List.dropWhile_cons]
  simp [hd]

end WMTPTransport

/-- Every serialized object is an open brace, a body, and a close brace. -/
theorem serVal_obj_shape (kvs : List (String × Json)) :
    ∃ M, serVal (Json.obj kvs) = '\x7b' :: (M ++ ['\x7d']) := by
  cases kvs with
  | nil => exact ⟨[], rfl⟩
  | cons p ps =>
    obtain ⟨k, w⟩ := p
    refine ⟨serStr k.data ++ ':' :: serVal w ++ serPairs ps, ?_⟩
    show '\x7b' :: (serStr k.data ++ ':' :: serVal w ++ serPairs ps ++ ['\x7d']) = _
    simp [List.append_assoc]

/-- When the brace-boundary split of the trimmed chunk has exactly two
parts, `_parseMessages` attempts exactly the two brace-reinserted
substrings, in order. -/
theorem parseAttempts_two (text p0 p1 : List Char)
    (h : WMTPTransport.bbSplit (WMTPTransport.trimChars text) = [p0, p1]) :
    WMTPTransport.parseAttempts text =
      [jsonParse (p0 ++ ['\x7d']), jsonParse ('\x7b' :: p1)] := by
  unfold WMTPTransport.parseAttempts
  rw [h]
  dsimp only
  rw [show List.enum [p0, p1] = [(0, p0), (1, p1)] from rfl]
  simp [WMTPTransport.fixPart]

/-- Whether a character sequence contains a literal closing brace
immediately followed by an opening brace. -/
def containsBB : List Char → Bool
  | c :: d :: rest => (c == '\x7d' && d == '\x7b') || containsBB (d :: rest)
  | _ => false

mutual

/-- Whether a literal brace pair occurs inside any string value or key of
a JSON value. -/
def hasLiteralBB : Json → Bool
  | .null => false
  | .bool _ => false
  | .num _ => false
  | .str s => containsBB s.data
  | .arr xs => hasLiteralBBItems xs
  | .obj kvs => hasLiteralBBPairs kvs

def hasLiteralBBItems : List Json → Bool
  | [] => false
  | x :: xs => hasLiteralBB x || hasLiteralBBItems xs

def hasLiteralBBPairs : List (String × Json) → Bool
  | [] => false
  | (k, w) :: ps => containsBB k.data || hasLiteralBB w || hasLiteralBBPairs ps

end

open WMTPTransport in
/-- C3 (counterexample): the claim fails as stated.  Neither object
contains a literal brace pair inside a string value, yet the first
object's string value contains a closing brace, a space, and an opening
brace, which the whitespace-ignoring split rule also matches; the split
chunk yields one message (the empty object), not the two originals. -/
theorem c3_counterexample :
    let v1 := Json.obj [("a", Json.str (String.mk ['\x7d', ' ', '\x7b']))]
    let v2 := Json.obj ([] : List (String × Json))
    hasLiteralBB v1 = false ∧ hasLiteralBB v2 = false ∧
    parseMessages (serVal v1 ++ serVal v2) = [Json.obj []] ∧
    ([Json.obj []] : List Json) ≠ [v1, v2] := by
  refine ⟨?_, ?_, ?_, ?_⟩
  · simp [hasLiteralBB, hasLiteralBBPairs, containsBB]
  · simp [hasLiteralBB, hasLiteralBBPairs]
  · show parseMessages
      (serVal (Json.obj [("a", Json.str (String.mk ['\x7d', ' ', '\x7b']))]) ++
        serVal (Json.obj [])) = [Json.obj []]
    have hser : serVal (Json.obj [("a", Json.str (String.mk ['\x7d', ' ', '\x7b']))]) ++
        serVal (Json.obj []) =
        ['\x7b', '"', 'a', '"', ':', '"', '\x7d', ' ', '\x7b', '"', '\x7d',
         '\x7b', '\x7d'] := by
      simp [serVal, serStr, serStrBody, serPairs, serItems, escChar]
    rw [hser]
    rfl
  · simp

open WMTPTransport in
/-- C3 (amended): for any two JSON object messages whose serializations
contain no internal split boundary (no closing brace followed, ignoring
whitespace, by an opening brace — a condition that also excludes, e.g., a
closing brace, spaces, and an opening brace inside a string value, which
the literal-brace-pair condition of the original claim does not),
`_parseMessages` applied to their concatenation emits exactly the two
original messages, in order: the split occurs at the junction, and the
consumed braces are re-inserted so each substring parses independently. -/
theorem c3_two_messages (kvs1 kvs2 : List (String × Json))
    (h1 : bbSplit (serVal (Json.obj kvs1)) = [serVal (Json.obj kvs1)])
    (h2 : bbSplit (serVal (Json.obj kvs2)) = [serVal (Json.obj kvs2)]) :
    parseMessages (serVal (Json.obj kvs1) ++ serVal (Json.obj kvs2)) =
      [Json.obj kvs1, Json.obj kvs2] := by
  obtain ⟨M1, e1⟩ := serVal_obj_shape kvs1
  obtain ⟨M2, e2⟩ := serVal_obj_shape kvs2
  rw [e1] at h1 ⊢
  rw [e2] at h2 ⊢
  have hh : (('\x7b' :: (M1 ++ ['\x7d'])) ++ ('\x7b' :: (M2 ++ ['\x7d']))) =
      '\x7b' :: ((M1 ++ ['\x7d']) ++ ('\x7b' :: (M2 ++ ['\x7d']))) := by simp
  have hl : (('\x7b' :: (M1 ++ ['\x7d'])) ++ ('\x7b' :: (M2 ++ ['\x7d']))) =
      (('\x7b' :: (M1 ++ ['\x7d'])) ++ ('\x7b' :: M2)) ++ ['\x7d'] := by simp
  have htrim := trimChars_eq_self hh (by decide) hl (by decide)
  have hsplit : bbSplit (trimChars
      (('\x7b' :: (M1 ++ ['\x7d'])) ++ ('\x7b' :: (M2 ++ ['\x7d'])))) =
      ['\x7b' :: M1, M2 ++ ['\x7d']] := by
    rw [htrim]
    exact bbSplit_concat M1 M2 h1 h2
  unfold parseMessages
  rw [parseAttempts_two _ _ _ hsplit]
  have j1 : jsonParse (('\x7b' :: M1) ++ ['\x7d']) = some (Json.obj kvs1) := by
    rw [show ('\x7b' :: M1) ++ ['\x7d'] = '\x7b' :: (M1 ++ ['\x7d']) from rfl,
        ← e1]
    exact jsonParse_serVal _
  have j2 : jsonParse ('\x7b' :: (M2 ++ ['\x7d'])) = some (Json.obj kvs2) := by
    rw [← e2]
    exact jsonParse_serVal _
  rw [j1, j2]
  simp


open WMTPTransport in
/-- C3 (witness): the amended theorem applied to two concrete object
messages with no internal split boundary. -/
theorem c3_witness :
    parseMessages
      (serVal (Json.obj [("cmd", Json.str (String.mk ['P', 'I', 'N', 'G']))]) ++
        serVal (Json.obj [])) =
      [Json.obj [("cmd", Json.str (String.mk ['P', 'I', 'N', 'G']))],
       Json.obj []] := by
  apply c3_two_messages
  · have hser : serVal (Json.obj [("cmd", Json.str (String.mk ['P', 'I', 'N', 'G']))]) =
        ['\x7b', '"', 'c', 'm', 'd', '"', ':', '"', 'P', 'I', 'N', 'G', '"',
         '\x7d'] := by
      simp [serVal, serStr, serStrBody, serPairs, serItems, escChar]
    rw [hser]
    decide
  · have hser : serVal (Json.obj ([] : List (String × Json))) =
        ['\x7b', '\x7d'] := by
      simp [serVal]
    rw [hser]
    decide

open WMTPTransport in
/-- C8: for every read chunk whose brace-boundary split has exactly two
parts, one of which (after brace re-insertion) is malformed and the other
parses to a message `m`, `_parseMessages` returns exactly `[m]` and emits
exactly one diagnostic — the parse failure of one substring does not abort
processing of the other. -/
theorem c8_malformed_isolation (text p0 p1 : List Char) (m : Json)
    (hsplit : bbSplit (trimChars text) = [p0, p1])
    (hcase :
      (jsonParse (p0 ++ ['\x7d']) = none ∧ jsonParse ('\x7b' :: p1) = some m) ∨
      (jsonParse (p0 ++ ['\x7d']) = some m ∧ jsonParse ('\x7b' :: p1) = none)) :
    parseMessages text = [m] ∧ parseFailures text = 1 := by
  have ha := parseAttempts_two text p0 p1 hsplit
  unfold parseMessages parseFailures
  rw [ha]
  rcases hcase with ⟨h0, h1⟩ | ⟨h0, h1⟩ <;> rw [h0, h1] <;> simp

open WMTPTransport in
/-- C8 (witness): the chunk `{x}{}` splits into a malformed part and the
empty object; exactly the empty object is returned, with one diagnostic. -/
theorem c8_witness :
    parseMessages ['\x7b', 'x', '\x7d', '\x7b', '\x7d'] = [Json.obj []] ∧
    parseFailures ['\x7b', 'x', '\x7d', '\x7b', '\x7d'] = 1 :=
  c8_malformed_isolation _ ['\x7b', 'x'] ['\x7d'] (Json.obj [])
    (by decide)
    (Or.inl ⟨rfl, rfl⟩)

namespace WMTPTransport

/-- Which of the `WMTPTransport` callback fields are non-null
(`this.onMessage`, `this.onConnect`, `this.onDisconnect`, `this.onError`). -/
structure THandlers where
  onMessage : Bool
  onConnect : Bool
  onDisconnect : Bool
  onError : Bool

/-- All transport callbacks registered. -/
def allTHandlers : THandlers :=
  { onMessage := true, onConnect := true, onDisconnect := true, onError := true }

/-- A lifecycle callback invocation. -/
inductive TEvent where
  | connected
  | disconnected
  | errored
deriving DecidableEq, Repr

/-- The observable fields of `WMTPTransport`: the `transport`, `writer` and
`reader` handles (opaque, so modelled as `Option Unit`), the `connected`
flag, and the pinned certificate hash. -/
structure TState where
  transport : Option Unit
  writer : Option Unit
  reader : Option Unit
  connected : Bool
  certHash : Option String
deriving DecidableEq, Repr

/-- The constructor state of `WMTPTransport`. -/
def initialTState : TState :=
  { transport := none, writer := none, reader := none,
    connected := false, certHash := none }

/-- `WMTPTransport._handleDisconnect` (protocol.js lines 418-427): clear
the flag and all three handles, then fire the disconnect callback if it
is registered — unconditionally on every invocation. -/
def handleDisconnect (h : THandlers) (t : TState) : TState × List TEvent :=
  ({ t with connected := false, transport := none, writer := none,
            reader := none },
   if h.onDisconnect then [TEvent.disconnected] else [])

/-- `WMTPTransport.disconnect` (protocol.js lines 317-326): if a transport
handle exists, attempt a close whose failure (`closeFails`) is swallowed by
the empty catch block — the discarded `Except` value models that — then
always run `_handleDisconnect`. -/
def disconnect (h : THandlers) (closeFails : Bool) (t : TState) :
    TState × List TEvent :=
  let _closeResult : Except String Unit :=
    match t.transport with
    | some _ => if closeFails then Except.error "close failed" else Except.ok ()
    | none => Except.ok ()
  handleDisconnect h t

/-- The point at which an execution of `connect` fails, if any: the
`WebTransport` capability check, the constructor, the `ready` promise, or
`createBidirectionalStream`. -/
inductive ConnectFailure where
  | unsupported
  | ctorThrows
  | readyRejects
  | streamRejects
deriving DecidableEq, Repr

/-- `WMTPTransport.connect` (protocol.js lines 250-312), with the failure
point of the underlying platform operations supplied as `outcome`.  The
assignment `this.transport = new WebTransport(url, options)` happens before
`await this.transport.ready`, so on a `ready` or stream failure the
transport handle stays assigned; the catch block fires the error callback
and re-throws without clearing it.  Returns the state, the result
(`Except.ok true` on success, the thrown error otherwise), and the fired
callbacks. -/
def connect (h : THandlers) (outcome : Option ConnectFailure) (t : TState) :
    TState × Except String Bool × List TEvent :=
  match outcome with
  | some ConnectFailure.unsupported =>
    (t, Except.error "WebTransport is not supported",
     if h.onError then [TEvent.errored] else [])
  | some ConnectFailure.ctorThrows =>
    (t, Except.error "constructor failed",
     if h.onError then [TEvent.errored] else [])
  | some ConnectFailure.readyRejects =>
    ({ t with transport := some () }, Except.error "ready rejected",
     if h.onError then [TEvent.errored] else [])
  | some ConnectFailure.streamRejects =>
    ({ t with transport := some () }, Except.error "stream failed",
     if h.onError then [TEvent.errored] else [])
  | none =>
    ({ t with transport := some (), writer := some (), reader := some (),
              connected := true },
     Except.ok true,
     if h.onConnect then [TEvent.connected] else [])

/-- The argument of `WMTPTransport.send`: a string, or a structured value. -/
inductive SendData where
  | strd (s : String)
  | objd (j : Json)

/-- The model of `TextEncoder().encode`: the byte-level UTF-8 encoding of
the external encoder is abstracted to the character sequence of the text
it is given. -/
def textEncode (s : String) : List Char := s.data

/-- `WMTPTransport.send` (protocol.js lines 332-342): fail when not
connected or the writer is absent; otherwise encode the message — the
string itself when the argument is a string, `JSON.stringify` of it
otherwise — and write it. -/
def send (t : TState) (d : SendData) : Except String (List Char) :=
  if t.connected = false ∨ t.writer = none then Except.error "Not connected"
  else
    Except.ok (textEncode
      (match d with
       | SendData.strd s => s
       | SendData.objd j => String.mk (serVal j)))

end WMTPTransport

/-- How `JSON.stringify` treats a JavaScript value in an object position:
`undefined` properties are dropped; the others serialize. -/
def jvalToJson : JVal → Option Json
  | JVal.undef => none
  | JVal.nullv => some Json.null
  | JVal.str s => some (Json.str s)
  | JVal.boolv b => some (Json.bool b)
  | JVal.num n => some (Json.num n)

/-- The object member contributed by one property: absent when the value
is `undefined`. -/
def optField (k : String) (v : JVal) : List (String × Json) :=
  match jvalToJson v with
  | some j => [(k, j)]
  | none => []

namespace WMTPProtocol

/-- The request object built by `WMTPProtocol.logout` (protocol.js lines
55-58): `cmd: LOGOUT` with `data: (token: current session token)`. -/
def logoutRequest (s : Session) : Json :=
  Json.obj [("cmd", Json.str "LOGOUT"),
            ("data", Json.obj (optField "token" s.sessionToken))]

/-- `WMTPProtocol.logout` (protocol.js lines 54-66): await the transport
send of the logout request; only when it returns (does not throw) are the
four session fields cleared — a thrown send propagates and leaves the
session untouched. -/
def logout (t : WMTPTransport.TState) (s : Session) :
    Except String Unit × Session :=
  match WMTPTransport.send t (WMTPTransport.SendData.objd (logoutRequest s)) with
  | Except.error e => (Except.error e, s)
  | Except.ok _ => (Except.ok (), initialSession)

/-- `WMTPProtocol.saveSession` (protocol.js lines 183-191): only when the
session token is truthy, write `JSON.stringify` of the three-field record
to the store (the external key-value store is modelled as the stored
`Option String`). -/
def saveSession (s : Session) (store : Option String) : Option String :=
  if s.sessionToken.truthy then
    some (String.mk (serVal (Json.obj
      (optField "token" s.sessionToken ++ optField "email" s.email ++
        optField "username" s.username))))
  else store

/-- `WMTPProtocol.loadSession` (protocol.js lines 196-206): a missing (or
falsy, i.e. empty) stored value yields `null`; otherwise `JSON.parse` the
stored text, yielding `null` on a parse failure. -/
def loadSession (store : Option String) : Option Json :=
  match store with
  | none => none
  | some saved =>
    if saved = "" then none
    else
      match jsonParse saved.data with
      | some v => some v
      | none => none

end WMTPProtocol

open WMTPTransport in
/-- C4 (counterexample): the claim fails as stated.  When `connect` fails
at the `ready` step, the transport handle assigned by the constructor is
retained — the observable state is not the disconnected state. -/
theorem c4_counterexample :
    (connect allTHandlers (some ConnectFailure.readyRejects) initialTState).1.transport
      = some () ∧
    (connect allTHandlers (some ConnectFailure.readyRejects) initialTState).1
      ≠ initialTState := by
  decide

open WMTPTransport in
/-- C4 (amended): for every execution of `connect` from a disconnected
state that fails at any sub-step, afterwards `connected` is still `false`
and the writer and reader handles are still absent, the error is
re-signaled to the caller, and the error callback fires; however, the
underlying transport object handle may be retained (it is assigned before
the failing `await` and the catch block does not clear it). -/
theorem c4_connect_failure (h : THandlers) (f : ConnectFailure) (t : TState)
    (ht : t.connected = false) (hw : t.writer = none) (hr : t.reader = none) :
    (connect h (some f) t).1.connected = false ∧
    (connect h (some f) t).1.writer = none ∧
    (connect h (some f) t).1.reader = none ∧
    (∃ e, (connect h (some f) t).2.1 = Except.error e) ∧
    (h.onError = true → (connect h (some f) t).2.2 = [TEvent.errored]) := by
  cases f <;>
    exact ⟨ht, hw, hr, ⟨_, rfl⟩, fun hh => by simp [connect, hh]⟩

open WMTPTransport in
/-- C4 (witness): the amended theorem at a concrete failing execution. -/
theorem c4_witness :
    (connect allTHandlers (some ConnectFailure.streamRejects) initialTState).1.connected
      = false ∧
    (connect allTHandlers (some ConnectFailure.streamRejects) initialTState).1.writer
      = none ∧
    (connect allTHandlers (some ConnectFailure.streamRejects) initialTState).1.reader
      = none ∧
    (∃ e, (connect allTHandlers (some ConnectFailure.streamRejects) initialTState).2.1
      = Except.error e) ∧
    (allTHandlers.onError = true →
      (connect allTHandlers (some ConnectFailure.streamRejects) initialTState).2.2
        = [TEvent.errored]) :=
  c4_connect_failure allTHandlers ConnectFailure.streamRejects initialTState
    rfl rfl rfl

open WMTPTransport in
/-- C5 (counterexample): the claim fails as stated.  Two successive
`disconnect` calls from a connected state fire the disconnect notification
twice, not once: `disconnect` always runs `_handleDisconnect`, which always
fires the callback when registered. -/
theorem c5_counterexample :
    ((disconnect allTHandlers false
        { transport := some (), writer := some (), reader := some (),
          connected := true, certHash := none }).2 ++
      (disconnect allTHandlers false
        (disconnect allTHandlers false
          { transport := some (), writer := some (), reader := some (),
            connected := true, certHash := none }).1).2).count
      TEvent.disconnected = 2 ∧ (2 : Nat) ≠ 1 := by
  decide

open WMTPTransport in
/-- C5 (amended): `disconnect` never raises — a close failure is swallowed
and does not change the result — and it is idempotent on state (the second
call leaves the state unchanged, at the disconnected state); but each call
fires its own disconnect notification, so two successive calls produce two
notifications when the handler is registered, not one. -/
theorem c5_disconnect_twice (h : THandlers) (cb1 cb2 : Bool) (t : TState) :
    (disconnect h cb1 t).1.connected = false ∧
    (disconnect h cb1 t).1.transport = none ∧
    (disconnect h cb1 t).1.writer = none ∧
    (disconnect h cb1 t).1.reader = none ∧
    (disconnect h cb2 (disconnect h cb1 t).1).1 = (disconnect h cb1 t).1 ∧
    disconnect h cb1 t = disconnect h (!cb1) t ∧
    (h.onDisconnect = true →
      ((disconnect h cb1 t).2 ++
        (disconnect h cb2 (disconnect h cb1 t).1).2).count
        TEvent.disconnected = 2) := by
  unfold disconnect handleDisconnect
  by_cases hd : h.onDisconnect <;> simp [hd]

open WMTPTransport in
/-- C5 (witness): the amended theorem at a concrete connected state. -/
theorem c5_witness :
    (disconnect allTHandlers false
      { transport := some (), writer := some (), reader := some (),
        connected := true, certHash := none }).1.connected = false ∧
    (disconnect allTHandlers false
      { transport := some (), writer := some (), reader := some (),
        connected := true, certHash := none }).1.transport = none ∧
    (disconnect allTHandlers false
      { transport := some (), writer := some (), reader := some (),
        connected := true, certHash := none }).1.writer = none ∧
    (disconnect allTHandlers false
      { transport := some (), writer := some (), reader := some (),
        connected := true, certHash := none }).1.reader = none ∧
    (disconnect allTHandlers true
      (disconnect allTHandlers false
        { transport := some (), writer := some (), reader := some (),
          connected := true, certHash := none }).1).1 =
      (disconnect allTHandlers false
        { transport := some (), writer := some (), reader := some (),
          connected := true, certHash := none }).1 ∧
    disconnect allTHandlers false
      { transport := some (), writer := some (), reader := some (),
        connected := true, certHash := none } =
      disconnect allTHandlers (!false)
        { transport := some (), writer := some (), reader := some (),
          connected := true, certHash := none } ∧
    (allTHandlers.onDisconnect = true →
      ((disconnect allTHandlers false
          { transport := some (), writer := some (), reader := some (),
            connected := true, certHash := none }).2 ++
        (disconnect allTHandlers true
          (disconnect allTHandlers false
            { transport := some (), writer := some (), reader := some (),
              connected := true, certHash := none }).1).2).count
        TEvent.disconnected = 2) :=
  c5_disconnect_twice allTHandlers false true
    { transport := some (), writer := some (), reader := some (),
      connected := true, certHash := none }

open WMTPTransport WMTPProtocol in
/-- C6 (counterexample): the claim fails as stated.  When the transport
send fails (here: not connected), `logout` propagates the thrown error and
none of the four session fields is cleared. -/
theorem c6_counterexample :
    (logout initialTState
      { sessionToken := JVal.str "T", authenticated := JVal.boolv true,
        email := JVal.str "a@b.com", username := JVal.str "a" }).2 =
      { sessionToken := JVal.str "T", authenticated := JVal.boolv true,
        email := JVal.str "a@b.com", username := JVal.str "a" } ∧
    JVal.str "T" ≠ JVal.nullv ∧
    (logout initialTState
      { sessionToken := JVal.str "T", authenticated := JVal.boolv true,
        email := JVal.str "a@b.com", username := JVal.str "a" }).1 =
      Except.error "Not connected" := by
  refine ⟨rfl, by decide, rfl⟩

open WMTPTransport WMTPProtocol in
/-- C6 (amended): when the transport send succeeds, `logout` clears all
four local session fields by the time it returns, independent of any
server acknowledgment; when the transport send throws, the error
propagates to the caller and the session fields are left unchanged. -/
theorem c6_logout (t : TState) (s : Session) :
    (t.connected = true → t.writer = some () →
      logout t s = (Except.ok (), initialSession)) ∧
    (t.connected = false ∨ t.writer = none →
      logout t s = (Except.error "Not connected", s)) := by
  constructor
  · intro hc hw
    unfold logout WMTPTransport.send
    rw [if_neg (by simp [hc, hw])]
  · intro hor
    unfold logout WMTPTransport.send
    rw [if_pos hor]

open WMTPTransport WMTPProtocol in
/-- C6 (witness): the amended theorem at a concrete connected state and a
concrete disconnected state. -/
theorem c6_witness :
    logout
      { transport := some (), writer := some (), reader := some (),
        connected := true, certHash := none }
      { sessionToken := JVal.str "T", authenticated := JVal.boolv true,
        email := JVal.str "a@b.com", username := JVal.str "a" } =
      (Except.ok (), initialSession) ∧
    logout initialTState
      { sessionToken := JVal.str "T", authenticated := JVal.boolv true,
        email := JVal.str "a@b.com", username := JVal.str "a" } =
      (Except.error "Not connected",
        { sessionToken := JVal.str "T", authenticated := JVal.boolv true,
          email := JVal.str "a@b.com", username := JVal.str "a" }) :=
  ⟨(c6_logout _ _).1 rfl rfl, (c6_logout _ _).2 (Or.inl rfl)⟩

open WMTPTransport in
/-- C10: when connected with a writer present, `send` applied to a string
writes the encoding of that exact string — verbatim, with no JSON
serialization or validation, bypassing the structured-message framing —
while a non-string argument is serialized with `JSON.stringify` before
encoding. -/
theorem c10_send_verbatim (t : TState) (s : String) (j : Json)
    (hc : t.connected = true) (hw : t.writer = some ()) :
    send t (SendData.strd s) = Except.ok (textEncode s) ∧
    send t (SendData.objd j) = Except.ok (textEncode (String.mk (serVal j))) := by
  unfold send
  rw [if_neg (by simp [hc, hw]), if_neg (by simp [hc, hw])]
  exact ⟨rfl, rfl⟩

open WMTPTransport in
/-- C10 (witness): a string that is not itself a JSON text is written
verbatim, and a structured value is stringified. -/
theorem c10_witness :
    send
      { transport := some (), writer := some (), reader := some (),
        connected := true, certHash := none }
      (SendData.strd (String.mk ['h', 'i', '\x7d', '\x7b'])) =
      Except.ok ['h', 'i', '\x7d', '\x7b'] ∧
    send
      { transport := some (), writer := some (), reader := some (),
        connected := true, certHash := none }
      (SendData.objd Json.null) =
      Except.ok ['n', 'u', 'l', 'l'] := by
  have h := c10_send_verbatim
    { transport := some (), writer := some (), reader := some (),
      connected := true, certHash := none }
    (String.mk ['h', 'i', '\x7d', '\x7b']) Json.null rfl rfl
  refine ⟨h.1.trans ?_, h.2.trans ?_⟩
  · rfl
  · have : serVal Json.null = ['n', 'u', 'l', 'l'] := by simp [serVal]
    rw [textEncode, this]

/-- A string made of at least one character is not the empty string. -/
theorem stringMk_ne_empty (c : Char) (cs : List Char) :
    String.mk (c :: cs) ≠ "" := by
  intro h
  have hd : (String.mk (c :: cs)).data = ("" : String).data := by rw [h]
  simpa using hd

open WMTPProtocol in
/-- C9: for every session whose token is a non-empty string and whose
email and username are strings or null (the session data model: optional
strings), `saveSession` followed by `loadSession` returns a record with
exactly the three fields `token`, `email`, `username` equal to the saved
values; and for every session with no (falsy) token, `saveSession`
performs no write to the store. -/
theorem c9_persistence :
    (∀ (tk : String) (auth em un : JVal) (store : Option String),
      tk ≠ "" →
      (em = JVal.nullv ∨ ∃ e, em = JVal.str e) →
      (un = JVal.nullv ∨ ∃ u, un = JVal.str u) →
      ∃ je ju, jvalToJson em = some je ∧ jvalToJson un = some ju ∧
        loadSession (saveSession
            { sessionToken := JVal.str tk, authenticated := auth,
              email := em, username := un } store) =
          some (Json.obj [("token", Json.str tk), ("email", je),
                          ("username", ju)])) ∧
    (∀ (s : Session) (store : Option String),
      s.sessionToken.truthy = false → saveSession s store = store) := by
  constructor
  · intro tk auth em un store htk hem hun
    have htr : (JVal.str tk).truthy = true := by
      show (!tk.isEmpty) = true
      cases hempty : tk.isEmpty
      · rfl
      · exact absurd ((String.isEmpty_iff tk).mp hempty) htk
    obtain rfl | ⟨e, rfl⟩ := hem <;> obtain rfl | ⟨u, rfl⟩ := hun <;>
      refine ⟨_, _, rfl, rfl, ?_⟩ <;>
      · unfold WMTPProtocol.saveSession WMTPProtocol.loadSession
        rw [if_pos htr]
        obtain ⟨M, hM⟩ := serVal_obj_shape _
        rw [hM]
        dsimp only
        rw [if_neg (stringMk_ne_empty _ _), ← hM, jsonParse_serVal]
        rfl
  · intro s store hf
    unfold WMTPProtocol.saveSession
    rw [if_neg (by simp [hf])]

open WMTPProtocol in
/-- C9 (witness): the roundtrip at a concrete session, and the no-write
branch at a concrete tokenless session. -/
theorem c9_witness :
    (∃ je ju, jvalToJson (JVal.str "a@b.com") = some je ∧
      jvalToJson (JVal.str "a") = some ju ∧
      loadSession (saveSession
          { sessionToken := JVal.str "T", authenticated := JVal.boolv true,
            email := JVal.str "a@b.com", username := JVal.str "a" } none) =
        some (Json.obj [("token", Json.str "T"), ("email", je),
                        ("username", ju)])) ∧
    saveSession initialSession none = none :=
  ⟨c9_persistence.1 "T" (JVal.boolv true) (JVal.str "a@b.com") (JVal.str "a")
      none (by decide) (Or.inr ⟨_, rfl⟩) (Or.inr ⟨_, rfl⟩),
    c9_persistence.2 initialSession none (by decide)⟩
